import Mathlib

/-!
# Verification of the jaqs alpha-strategy core (`jaqs/trade/strategy.py`)

Shallow embedding of the rebalancing / order-generation core of the jaqs
strategy engine, together with proofs about it.  Python floats are modelled
as exact rationals with an explicit NaN constructor where NaN propagation
matters; dictionaries are modelled as association lists in iteration order;
fallible code returns `Except`.
-/

namespace Jaqs

/-- A Python float value: either NaN or an exact rational.  Exact rationals
stand in for binary floating point; the claims under study concern the order
of operations and NaN propagation, not rounding in the last ulp. -/
inductive PyFloat where
  | nan : PyFloat
  | val : ℚ → PyFloat
  deriving DecidableEq, Repr

namespace PyFloat

/-- `numpy.isnan`. -/
def isNan : PyFloat → Bool
  | nan => true
  | val _ => false

/-- Float addition: NaN propagates. -/
def add : PyFloat → PyFloat → PyFloat
  | nan, _ => nan
  | _, nan => nan
  | val a, val b => val (a + b)

/-- Float multiplication: NaN propagates. -/
def mul : PyFloat → PyFloat → PyFloat
  | nan, _ => nan
  | _, nan => nan
  | val a, val b => val (a * b)

/-- Float division: NaN propagates (only ever used with non-NaN, nonzero
divisors in the code paths below). -/
def div : PyFloat → PyFloat → PyFloat
  | nan, _ => nan
  | _, nan => nan
  | val a, val b => val (a / b)

/-- `abs` on a float: `abs(nan) = nan`. -/
def fabs : PyFloat → PyFloat
  | nan => nan
  | val a => val |a|

/-- IEEE comparison `a > b`: any comparison with NaN is False. -/
def gt : PyFloat → PyFloat → Bool
  | nan, _ => false
  | _, nan => false
  | val a, val b => decide (b < a)

/-- `numpy.minimum` of two floats: NaN propagates (as in `np.min`). -/
def fmin : PyFloat → PyFloat → PyFloat
  | nan, _ => nan
  | _, nan => nan
  | val a, val b => val (min a b)

end PyFloat

/-- `np.min` over a list of values (dict `.values()`); NaN propagates.
`np.min` of an empty array raises, so the empty case (returning NaN) is
never exercised by the code under study. -/
def npMin : List PyFloat → PyFloat
  | [] => PyFloat.nan
  | x :: xs => xs.foldl PyFloat.fmin x

/-- `np.sum` over a list of values; NaN propagates through the additions. -/
def npSum (l : List PyFloat) : PyFloat :=
  l.foldl PyFloat.add (PyFloat.val 0)

/-- A weight map `{symbol: weight}` in dict iteration order. -/
abbrev WeightMap := List (String × PyFloat)

/-- The weight-normalization step of `AlphaStrategy.portfolio_construction`
(strategy.py lines 421-429):

    w_min = np.min(weights.values())
    delta = 2 * abs(w_min)
    weights = {k: 0.0 if np.isnan(v) else v + delta for k, v in weights.items()}
    w_sum = np.sum(np.abs(weights.values()))
    if w_sum > 1e-8:
        weights = {k: v / w_sum for k, v in weights.items()}
-/
def pcNormalize (weights : WeightMap) : WeightMap :=
  let w_min := npMin (weights.map Prod.snd)
  let delta := PyFloat.mul (PyFloat.val 2) (PyFloat.fabs w_min)
  let weights1 := weights.map fun p =>
    (p.1, if (PyFloat.isNan p.2) then PyFloat.val 0 else PyFloat.add p.2 delta)
  let w_sum := npSum (weights1.map fun p => PyFloat.fabs p.2)
  if PyFloat.gt w_sum (PyFloat.val (1 / 100000000)) then
    weights1.map fun p => (p.1, PyFloat.div p.2 w_sum)
  else
    weights1

/-- The normalization algorithm as the specification words it (spec §4.3):
(1) replace NaN weights with 0.0 first; (2) `delta = 2 × |min|` over the
post-replacement set; (3) shift every weight, including the NaN-replaced
ones, by `+delta`; (4) divide by `Σ|shifted|` when that sum exceeds 1e-8. -/
def specNormalize (weights : WeightMap) : WeightMap :=
  let replaced := weights.map fun p =>
    (p.1, if (PyFloat.isNan p.2) then PyFloat.val 0 else p.2)
  let w_min := npMin (replaced.map Prod.snd)
  let delta := PyFloat.mul (PyFloat.val 2) (PyFloat.fabs w_min)
  let shifted := replaced.map fun p => (p.1, PyFloat.add p.2 delta)
  let w_sum := npSum (shifted.map fun p => PyFloat.fabs p.2)
  if PyFloat.gt w_sum (PyFloat.val (1 / 100000000)) then
    shifted.map fun p => (p.1, PyFloat.div p.2 w_sum)
  else
    shifted

/-- The normalization algorithm as the code actually orders it: `delta` is
computed from the raw, pre-replacement minimum (NaN-propagating), after
which each NaN weight becomes 0.0 without being shifted and each non-NaN
weight is shifted by `+delta`; then the conditional division as in the
spec. -/
def amendedNormalize (weights : WeightMap) : WeightMap :=
  let delta := PyFloat.mul (PyFloat.val 2)
    (PyFloat.fabs (npMin (weights.map Prod.snd)))
  let shifted := weights.map fun p =>
    (p.1, if (PyFloat.isNan p.2) then PyFloat.val 0 else PyFloat.add p.2 delta)
  let w_sum := npSum (shifted.map fun p => PyFloat.fabs p.2)
  if PyFloat.gt w_sum (PyFloat.val (1 / 100000000)) then
    shifted.map fun p => (p.1, PyFloat.div p.2 w_sum)
  else
    shifted

/-- Python membership test of a float inside a list of strings, as in the
expression `w not in suspensions` of `re_weight_suspension` (strategy.py
line 503): list membership compares `w == elem` elementwise, and in Python a
float never equals a str, so the test is `False` for every element. -/
def pyFloatInStrList (_ : ℚ) (_ : List String) : Bool := false

/-- `AlphaStrategy.re_weight_suspension` (strategy.py lines 486-508), acting
on a NaN-free weight map (weights as exact rationals).  `suspensions = None`
is modelled as the empty list (both are falsy in `if not suspensions`).
`ValueError("All suspended")` becomes `Except.error`.  Note the source
zeroes an entry when the **weight value** `w` occurs in `suspensions`
(`w if w not in suspensions else 0.0`), not when the symbol does. -/
def re_weight_suspension (weights : List (String × ℚ)) (univ : List String)
    (suspensions : List String) : Except String (List (String × ℚ)) :=
  if suspensions.isEmpty then Except.ok weights
  else if suspensions.length = univ.length then Except.error "All suspended"
  else
    let weights1 := weights.map fun p =>
      if ¬ (pyFloatInStrList p.2 suspensions) then p else (p.1, 0)
    let weights_sum := (weights1.map fun p => |p.2|).sum
    Except.ok (if weights_sum > 0 then
      weights1.map fun p => (p.1, p.2 / weights_sum)
    else weights1)

/-- Modelled from the spec: `GoalPosition` (from `jaqs/data/basic/position.py`,
not part of the sources under study) — a symbol together with its target
absolute share count for the current cycle. -/
structure GoalPosition where
  symbol : String
  size : ℤ
  deriving DecidableEq, Repr

/-- Python 2 `int(round(x, 0))`: round to the nearest integer with ties away
from zero (`round` already lands on an integral float, so the `int`
conversion is exact). -/
def py2round (q : ℚ) : ℤ :=
  if 0 ≤ q then ⌊q + 1/2⌋ else ⌈q - 1/2⌉

/-- `AlphaStrategy.generate_weights_order` (strategy.py lines 616-681).
Inputs: the weight map in dict iteration order, the cash budget `turnover`,
the price dict (total map; every symbol reaching the price lookup has a
price entry), the algo tag, the suspension list, and the ledger's
`get_position(sec, trade_date).curr_size` view (`none` = no position).
The guard `algo == 'close' or 'vwap'` on line 644 is always truthy in
Python (the string `'vwap'` is nonempty), so the loop body runs whenever
the first guard passed.  Per symbol: suspended → size = held size (0 if
none); `abs(w) < 1e-8` → size 0; otherwise
`shares = int(round(w*turnover/price/100, 0))`, `goal_pos.size = shares`
and `cash_used += shares * price * 100`.  Returns the goal list and
`cash_left = turnover - cash_used`.  `gwoStep` is the loop body (lines
645-678); `generate_weights_order` is the function itself. -/
def gwoStep (suspensions : List String) (get_position : String → Option ℤ)
    (turnover : ℚ) (prices : String → ℚ)
    (acc : List GoalPosition × ℚ) (p : String × ℚ) : List GoalPosition × ℚ :=
  let sec := p.1
  let w := p.2
  if suspensions.contains sec then
    (acc.1 ++ [⟨sec, (get_position sec).getD 0⟩], acc.2)
  else if |w| < 1 / 100000000 then
    (acc.1 ++ [⟨sec, 0⟩], acc.2)
  else
    let price := prices sec
    let shares_raw := w * turnover / price
    let shares := py2round (shares_raw / 100)
    (acc.1 ++ [⟨sec, shares⟩], acc.2 + (shares : ℚ) * price * 100)

def generate_weights_order (weights_dic : List (String × ℚ)) (turnover : ℚ)
    (prices : String → ℚ) (algo : String) (suspensions : List String)
    (get_position : String → Option ℤ) :
    Except String (List GoalPosition × ℚ) :=
  if ¬ (algo = "close" ∨ algo = "vwap") then
    Except.error "Currently we only suport order at close price."
  else
    let r := weights_dic.foldl
      (gwoStep suspensions get_position turnover prices) ([], 0)
    Except.ok (r.1, turnover - r.2)

/-- Modelled from the spec: `SequenceGenerator.get_next` (from
`jaqs/util/sequence.py`, not part of the sources under study).  Spec §4.1:
it returns a strictly increasing integer starting at 1, scoped per key,
held for the strategy instance's lifetime.  The counter state maps each key
to the last issued value (0 for a fresh key). -/
def get_next (s : String → ℕ) (key : String) : ℕ × (String → ℕ) :=
  (s key + 1, fun k => if k = key then s key + 1 else s k)

/-- `Strategy._get_next_num` (strategy.py lines 76-78):
`str(np.int64(trade_date) * 10000 + seq_gen.get_next(key))`. -/
def getNextNum (trade_date : ℕ) (s : String → ℕ) (key : String) :
    String × (String → ℕ) :=
  let r := get_next s key
  (toString (trade_date * 10000 + r.1), r.2)

/-- Modelled from the spec: the `Order` record (spec §3 data model: symbol,
side, price, size, entrust date/time, task id, entrust id; the class lives
in `jaqs/data/basic/order.py`, not in the sources under study).
`Order.new_order(symbol, action, price, size, trade_date, 0)` fills the
first six fields; `task_id`/`entrust_no` are assigned afterwards. -/
structure Order where
  symbol : String
  action : String
  price : ℚ
  size : ℤ
  entrust_date : ℕ
  entrust_time : ℕ
  task_id : String
  entrust_no : String
  deriving DecidableEq, Repr

/-- The strategy-owned mutable state touched by order placement: the
per-key sequence counters, `task_id_map` (task id ↦ list of entrust ids, a
`defaultdict(list)` modelled as an association list), and the orders the
ledger has been handed via `pm.add_order` (the external ledger contract is
modelled by recording the calls). -/
structure StratState where
  seq : String → ℕ
  task_id_map : List (String × List String)
  pm_orders : List Order

/-- `self.task_id_map[task_id].append(entrust_no)` on a `defaultdict(list)`:
a fresh key starts from the empty list. -/
def taskMapAppend (m : List (String × List String)) (k v : String) :
    List (String × List String) :=
  match m.lookup k with
  | some l => m.map fun p => if p.1 = k then (k, l ++ [v]) else p
  | none => m ++ [(k, [v])]

/-- `Strategy.place_order` (strategy.py lines 80-122).  A truthy `algo`
raises `NotImplementedError` (`Except.error`).  Otherwise the order is
built, task id and entrust id are minted, the entrust id is registered
under the task id, the order is added to the ledger, and the gateway is
asked to place it; on a non-empty gateway error message the returned task
id is `'0'`.  The gateway contract is the parameter `gw_place`. -/
def place_order (gw_place : Order → String) (trade_date : ℕ) (st : StratState)
    (symbol action : String) (price : ℚ) (size : ℤ) (algo : String) :
    Except String ((String × String) × StratState) :=
  if algo ≠ "" then Except.error ("algo " ++ algo)
  else
    let o0 : Order :=
      { symbol := symbol, action := action, price := price, size := size,
        entrust_date := trade_date, entrust_time := 0,
        task_id := "", entrust_no := "" }
    let t := getNextNum trade_date st.seq "task_id"
    let e := getNextNum trade_date t.2 "entrust_no"
    let order : Order := { o0 with task_id := t.1, entrust_no := e.1 }
    let st1 : StratState :=
      { seq := e.2,
        task_id_map := taskMapAppend st.task_id_map order.task_id order.entrust_no,
        pm_orders := st.pm_orders ++ [order] }
    let err_msg := gw_place order
    if err_msg ≠ "" then Except.ok (("0", err_msg), st1)
    else Except.ok ((order.task_id, err_msg), st1)

/-- `Strategy.cancel_order` (strategy.py lines 124-151).  Unknown task id →
`(False, "No task id {task_id}")`.  Otherwise every entrust id under the
task is cancelled independently through the gateway (`gw_cancel`); the call
succeeds iff every per-entrust error message is empty (`bool(s)` falsy),
and on failure the messages are joined with `','.join` (empty entries
preserved). -/
def cancel_order (gw_cancel : String → String)
    (task_id_map : List (String × List String)) (task_id : String) :
    Bool × String :=
  match task_id_map.lookup task_id with
  | none => (false, "No task id " ++ task_id)
  | some entrust_no_list =>
    let err_msgs := entrust_no_list.map gw_cancel
    if err_msgs.any (fun s => s ≠ "") then
      (false, String.intercalate "," err_msgs)
    else
      (true, "")

/-- `Strategy.place_batch_order` (strategy.py lines 153-186).  One shared
task id is minted for the batch; each order then gets its own entrust id,
is added to the ledger, submitted to the gateway, its error message
collected, and its entrust id registered; the returned error message is
`','.join(err_msgs)`.  The `algo`/`algo_param` parameters of the source are
never read, so they are omitted here.  `pboStep` is the per-order loop body
(lines 174-184); `place_batch_order` is the function itself. -/
def pboStep (gw_place : Order → String) (trade_date : ℕ) (task_id : String)
    (acc : StratState × List String) (o : Order) : StratState × List String :=
  let e := getNextNum trade_date acc.1.seq "entrust_no"
  let order : Order := { o with task_id := task_id, entrust_no := e.1 }
  let st' : StratState :=
    { seq := e.2,
      pm_orders := acc.1.pm_orders ++ [order],
      task_id_map := taskMapAppend acc.1.task_id_map order.task_id order.entrust_no }
  (st', acc.2 ++ [gw_place order])

def place_batch_order (gw_place : Order → String) (trade_date : ℕ)
    (st : StratState) (orders : List Order) :
    (String × String) × StratState :=
  let t := getNextNum trade_date st.seq "task_id"
  let task_id := t.1
  let init : StratState × List String := ({ st with seq := t.2 }, [])
  let r := orders.foldl (pboStep gw_place trade_date task_id) init
  ((task_id, String.intercalate "," r.2), r.1)

/-- Wrap a NaN-free rational weight map into Python floats. -/
def toPy (l : List (String × ℚ)) : WeightMap :=
  l.map fun p => (p.1, PyFloat.val p.2)

/-- `np.min` over a NaN-free value list (the 0 returned on the empty list is
junk and is never consulted: `np.min` of an empty array raises). -/
def qMin : List ℚ → ℚ
  | [] => 0
  | x :: xs => xs.foldl min x

/-- The intermediate weight map of `portfolio_construction` lines 421-424
on NaN-free input: every weight shifted by `delta = 2 * abs(min)`. -/
def shiftedWeights (l : List (String × ℚ)) : List (String × ℚ) :=
  l.map fun p => (p.1, p.2 + 2 * |qMin (l.map Prod.snd)|)

/-- The `w_sum = np.sum(np.abs(weights.values()))` of line 426 on NaN-free
input. -/
def shiftedSum (l : List (String × ℚ)) : ℚ :=
  ((shiftedWeights l).map fun p => |p.2|).sum

/-- `portfolio_construction` lines 421-429 on NaN-free input, at the level
of exact rationals. -/
def normQ (l : List (String × ℚ)) : List (String × ℚ) :=
  if shiftedSum l > 1 / 100000000 then
    (shiftedWeights l).map fun p => (p.1, p.2 / shiftedSum l)
  else shiftedWeights l

/-- `np.sum(np.abs(values))` over a weight map, used to state the L1-norm
invariant. -/
def sumAbsPy (w : WeightMap) : PyFloat :=
  npSum (w.map fun p => PyFloat.fabs p.2)

/-- The goal position `generate_weights_order` emits for one
`(symbol, weight)` entry (the loop body of lines 645-678). -/
def goalOf (suspensions : List String) (get_position : String → Option ℤ)
    (turnover : ℚ) (prices : String → ℚ) (p : String × ℚ) : GoalPosition :=
  if suspensions.contains p.1 then ⟨p.1, (get_position p.1).getD 0⟩
  else if |p.2| < 1 / 100000000 then ⟨p.1, 0⟩
  else ⟨p.1, py2round (p.2 * turnover / prices p.1 / 100)⟩

/-- The contribution of one `(symbol, weight)` entry to `cash_used`
(only the third branch of the loop adds to it). -/
def cashOf (suspensions : List String) (turnover : ℚ) (prices : String → ℚ)
    (p : String × ℚ) : ℚ :=
  if suspensions.contains p.1 then 0
  else if |p.2| < 1 / 100000000 then 0
  else (py2round (p.2 * turnover / prices p.1 / 100) : ℚ) * prices p.1 * 100

/-! ## Bridging lemmas: the float pipeline on NaN-free input computes the
rational pipeline -/

lemma foldl_fmin_val (x : ℚ) (xs : List ℚ) :
    (xs.map PyFloat.val).foldl PyFloat.fmin (PyFloat.val x)
      = PyFloat.val (xs.foldl min x) := by
  induction xs generalizing x with
  | nil => rfl
  | cons y ys ih => simpa [PyFloat.fmin] using ih (min x y)

lemma npMin_map_val (x : ℚ) (xs : List ℚ) :
    npMin ((x :: xs).map PyFloat.val) = PyFloat.val (qMin (x :: xs)) := by
  simp [npMin, qMin, foldl_fmin_val]

lemma foldl_add_val (a : ℚ) (xs : List ℚ) :
    (xs.map PyFloat.val).foldl PyFloat.add (PyFloat.val a)
      = PyFloat.val (xs.foldl (· + ·) a) := by
  induction xs generalizing a with
  | nil => rfl
  | cons y ys ih => simpa [PyFloat.add] using ih (a + y)

lemma foldl_add_eq_add_sum (a : ℚ) (xs : List ℚ) :
    xs.foldl (· + ·) a = a + xs.sum := by
  induction xs generalizing a with
  | nil => simp
  | cons y ys ih => simp [ih, add_assoc]

lemma npSum_map_val (xs : List ℚ) :
    npSum (xs.map PyFloat.val) = PyFloat.val xs.sum := by
  rw [npSum, foldl_add_val, foldl_add_eq_add_sum, zero_add]

lemma snd_toPy (l : List (String × ℚ)) :
    (toPy l).map Prod.snd = (l.map Prod.snd).map PyFloat.val := by
  simp [toPy]

lemma map_shift_toPy (l : List (String × ℚ)) (dq : ℚ) :
    ((toPy l).map fun q =>
        (q.1, if (PyFloat.isNan q.2) then PyFloat.val 0
              else PyFloat.add q.2 (PyFloat.val dq)))
      = toPy (l.map fun p => (p.1, p.2 + dq)) := by
  induction l with
  | nil => rfl
  | cons p ps ih => simp [toPy, PyFloat.isNan, PyFloat.add, ih]

lemma map_abs_toPy (l : List (String × ℚ)) :
    ((toPy l).map fun q => PyFloat.fabs q.2)
      = (l.map fun p => |p.2|).map PyFloat.val := by
  simp [toPy, PyFloat.fabs]

lemma map_div_toPy (l : List (String × ℚ)) (s : ℚ) :
    ((toPy l).map fun q => (q.1, PyFloat.div q.2 (PyFloat.val s)))
      = toPy (l.map fun p => (p.1, p.2 / s)) := by
  simp [toPy, PyFloat.div]

lemma sumAbsPy_toPy (l : List (String × ℚ)) :
    sumAbsPy (toPy l) = PyFloat.val ((l.map fun p => |p.2|).sum) := by
  rw [sumAbsPy, map_abs_toPy, npSum_map_val]

/-- On NaN-free input the float normalization of `portfolio_construction`
computes the exact rational normalization. -/
lemma pcNormalize_toPy (l : List (String × ℚ)) :
    pcNormalize (toPy l) = toPy (normQ l) := by
  cases l with
  | nil =>
    simp [pcNormalize, normQ, toPy, npMin, npSum, shiftedWeights, shiftedSum,
      PyFloat.mul, PyFloat.fabs, PyFloat.gt]
  | cons p ps =>
    have hmin : npMin ((toPy (p :: ps)).map Prod.snd)
        = PyFloat.val (qMin ((p :: ps).map Prod.snd)) := by
      rw [snd_toPy]
      exact npMin_map_val _ _
    rw [pcNormalize]
    rw [hmin]
    have hdelta : PyFloat.mul (PyFloat.val 2)
        (PyFloat.fabs (PyFloat.val (qMin ((p :: ps).map Prod.snd))))
        = PyFloat.val (2 * |qMin ((p :: ps).map Prod.snd)|) := rfl
    rw [hdelta, map_shift_toPy]
    have hshift : ((p :: ps).map fun q => (q.1, q.2 + 2 * |qMin ((p :: ps).map Prod.snd)|))
        = shiftedWeights (p :: ps) := rfl
    rw [hshift, map_abs_toPy, npSum_map_val]
    rw [normQ]
    by_cases h : (1 : ℚ) / 100000000 < shiftedSum (p :: ps)
    · rw [if_pos (by simpa [PyFloat.gt, shiftedSum] using h), if_pos h,
        map_div_toPy]
      rfl
    · rw [if_neg (by simpa [PyFloat.gt, shiftedSum] using h), if_neg h]

lemma sum_map_div (l : List ℚ) (s : ℚ) :
    (l.map fun x => x / s).sum = l.sum / s := by
  induction l with
  | nil => simp
  | cons x xs ih => simp [ih, add_div]

lemma sumAbs_normQ (l : List (String × ℚ))
    (h : 1 / 100000000 < shiftedSum l) :
    ((normQ l).map fun p => |p.2|).sum = 1 := by
  have hs : (0 : ℚ) < shiftedSum l := lt_trans (by norm_num) h
  rw [normQ, if_pos h, List.map_map]
  calc ((shiftedWeights l).map
          ((fun p : String × ℚ => |p.2|) ∘ fun p => (p.1, p.2 / shiftedSum l))).sum
      = ((shiftedWeights l).map fun p => |p.2| / shiftedSum l).sum := by
        refine congrArg List.sum (List.map_congr_left fun a _ => ?_)
        simp [Function.comp, abs_div, abs_of_pos hs]
    _ = (((shiftedWeights l).map fun p => |p.2|).map fun x => x / shiftedSum l).sum := by
        rw [List.map_map]
        rfl
    _ = shiftedSum l / shiftedSum l := by rw [sum_map_div]; rfl
    _ = 1 := div_self (ne_of_gt hs)

/-! ## Claim theorems -/

/-- C3 (counterexample): the claim that `portfolio_construction` first
replaces NaN weights by 0.0, then computes `delta` over the
post-replacement set, then shifts every weight including the NaN-replaced
ones, is false: on `{A: NaN, B: 1.0}` the code propagates NaN through the
minimum into `delta`, turning B's weight into NaN, while the claimed order
leaves B at 1.0. -/
theorem C3_counterexample :
    pcNormalize [("A", PyFloat.nan), ("B", PyFloat.val 1)]
      ≠ specNormalize [("A", PyFloat.nan), ("B", PyFloat.val 1)] := by
  have h1 : pcNormalize [("A", PyFloat.nan), ("B", PyFloat.val 1)]
      = [("A", PyFloat.val 0), ("B", PyFloat.nan)] := by decide
  have h2 : specNormalize [("A", PyFloat.nan), ("B", PyFloat.val 1)]
      = [("A", PyFloat.val 0), ("B", PyFloat.val 1)] := by
    simp [specNormalize, npMin, npSum, PyFloat.isNan, PyFloat.fmin,
      PyFloat.add, PyFloat.mul, PyFloat.div, PyFloat.fabs, PyFloat.gt]
  rw [h1, h2]
  decide

/-- C3 (amended): `portfolio_construction` normalizes in this order:
`delta = 2 × |min(weights)|` is computed over the raw, pre-replacement
values with NaN propagating; then, in one pass, every NaN weight is
replaced by 0.0 *without* being shifted and every non-NaN weight is
shifted by `+delta`; finally, if `Σ|shifted weights| > 1e-8`, every weight
is divided by that sum.  This is applied unconditionally, also when all
raw weights were already non-negative. -/
theorem C3_normalization_order (w : WeightMap) :
    pcNormalize w = amendedNormalize w := rfl

/-- C4 (amended): for every NaN-free raw weight map, after
`portfolio_construction`'s normalization `Σ|weight|` equals 1.0 exactly
(hence within ±1e-6), unless the pre-normalization shifted sum
`Σ|shifted weight|` is ≤ 1e-8, in which case the weights keep their
shifted, near-zero values (their absolute sum stays `Σ|shifted weight|`,
not necessarily 0). -/
theorem C4_l1_invariant (l : List (String × ℚ)) :
    (1 / 100000000 < shiftedSum l →
      sumAbsPy (pcNormalize (toPy l)) = PyFloat.val 1)
    ∧ (shiftedSum l ≤ 1 / 100000000 →
      pcNormalize (toPy l) = toPy (shiftedWeights l)
      ∧ sumAbsPy (pcNormalize (toPy l)) = PyFloat.val (shiftedSum l)) := by
  constructor
  · intro h
    rw [pcNormalize_toPy, sumAbsPy_toPy, sumAbs_normQ l h]
  · intro h
    have hn : normQ l = shiftedWeights l := by
      rw [normQ, if_neg (not_lt.mpr h)]
    refine ⟨by rw [pcNormalize_toPy, hn], ?_⟩
    rw [pcNormalize_toPy, hn, sumAbsPy_toPy]
    rfl

/-- C4 witness: on `{A: 1/5, B: 4/5}` the shifted sum exceeds 1e-8 and the
normalized absolute weights sum to exactly 1. -/
theorem C4_l1_invariant_witness :
    1 / 100000000 < shiftedSum [("A", (1:ℚ)/5), ("B", (4:ℚ)/5)]
    ∧ sumAbsPy (pcNormalize (toPy [("A", (1:ℚ)/5), ("B", (4:ℚ)/5)]))
      = PyFloat.val 1 :=
  ⟨by norm_num [shiftedSum, shiftedWeights, qMin, abs_of_nonneg],
   (C4_l1_invariant _).1
     (by norm_num [shiftedSum, shiftedWeights, qMin, abs_of_nonneg])⟩

/-- C4 (counterexample): the claim that all resulting weights are 0 when
the shifted sum is ≤ 1e-8 is false: on the single weight `{A: 1e-9}` the
shifted sum is `3e-9 ≤ 1e-8` and the resulting weight is `3e-9 ≠ 0`. -/
theorem C4_counterexample :
    shiftedSum [("A", (1:ℚ)/1000000000)] ≤ 1 / 100000000
    ∧ pcNormalize (toPy [("A", (1:ℚ)/1000000000)])
      = [("A", PyFloat.val (3/1000000000))]
    ∧ (3/1000000000 : ℚ) ≠ 0 := by
  have h : shiftedSum [("A", (1:ℚ)/1000000000)] ≤ 1 / 100000000 := by
    norm_num [shiftedSum, shiftedWeights, qMin, abs_of_nonneg]
  refine ⟨h, ?_, by norm_num⟩
  rw [pcNormalize_toPy, normQ, if_neg (not_lt.mpr h)]
  norm_num [toPy, shiftedWeights, qMin, abs_of_nonneg]

/-- C1 (evaluation at the failing input): with weights `{A:0.2, B:0.8}`,
prices `{A:10, B:20}`, budget 10000 and no suspensions,
`generate_weights_order` emits target sizes A ↦ 2 and B ↦ 4 — the rounded
lot counts `int(round(raw_shares/100., 0))`, never rescaled by 100
(line 675 assigns `goal_pos.size = shares`) — not the 200 and 400 shares
the claim states, and 2 is not a multiple of the 100-share lot; the cash
side does use `shares * price * 100`, so `cash_left = 0` as claimed. -/
theorem C1_lot_scaling_failing_eval :
    generate_weights_order [("A", 1/5), ("B", 4/5)] 10000
      (fun s => if s = "A" then 10 else 20) "close" [] (fun _ => none)
      = Except.ok ([⟨"A", 2⟩, ⟨"B", 4⟩], 0)
    ∧ ¬ ((100 : ℤ) ∣ 2) := by
  refine ⟨?_, by decide⟩
  simp [generate_weights_order, gwoStep, py2round]
  norm_num [abs_of_nonneg]

/-- C2 (evaluation at the failing input): with universe `{A,B}`, weights
`{A:0.5, B:0.5}` and suspension list `[B]`, `re_weight_suspension` leaves
B's weight at 0.5 instead of setting it to 0: line 503 tests the weight
value `w`, not the symbol `sec`, for membership in `suspensions`, and a
Python float never equals a symbol string. -/
theorem C2_suspension_zeroing_failing_eval :
    re_weight_suspension [("A", (1:ℚ)/2), ("B", (1:ℚ)/2)] ["A", "B"] ["B"]
      = Except.ok [("A", 1/2), ("B", 1/2)] := by
  simp [re_weight_suspension, pyFloatInStrList]
  norm_num [abs_of_nonneg]

lemma gwoStep_eq (susp : List String) (pos : String → Option ℤ) (t : ℚ)
    (prices : String → ℚ) (acc : List GoalPosition × ℚ) (p : String × ℚ) :
    gwoStep susp pos t prices acc p
      = (acc.1 ++ [goalOf susp pos t prices p], acc.2 + cashOf susp t prices p) := by
  simp only [gwoStep, goalOf, cashOf]
  by_cases h1 : susp.contains p.1 = true
  · simp only [if_pos h1]
    simp
  · simp only [if_neg h1]
    by_cases h2 : |p.2| < 1 / 100000000
    · simp only [if_pos h2]
      simp
    · simp only [if_neg h2]

lemma gwo_foldl (w : List (String × ℚ)) (susp : List String)
    (pos : String → Option ℤ) (t : ℚ) (prices : String → ℚ)
    (acc : List GoalPosition × ℚ) :
    w.foldl (gwoStep susp pos t prices) acc
      = (acc.1 ++ w.map (goalOf susp pos t prices),
         acc.2 + (w.map (cashOf susp t prices)).sum) := by
  induction w generalizing acc with
  | nil => simp
  | cons p ps ih => simp [List.foldl_cons, gwoStep_eq, ih, add_assoc]

/-- `generate_weights_order` with a supported algo tag is the per-entry map
`goalOf` plus the cash bookkeeping `cashOf`. -/
lemma generate_weights_order_eq (w : List (String × ℚ)) (t : ℚ)
    (prices : String → ℚ) (algo : String) (susp : List String)
    (pos : String → Option ℤ) (halgo : algo = "close" ∨ algo = "vwap") :
    generate_weights_order w t prices algo susp pos
      = Except.ok (w.map (goalOf susp pos t prices),
          t - (w.map (cashOf susp t prices)).sum) := by
  rw [generate_weights_order, if_neg (not_not_intro halgo), gwo_foldl]
  simp

/-- C6: for every suspended symbol appearing in the weight map handed to
`generate_weights_order`, the emitted goal position's size equals the
currently held position size (0 when no position is held), the symbol's
contribution to cash-committed is 0, and `cash_left` is the budget minus
the sum of the per-symbol contributions — so the suspended symbol does not
change `cash_left`. -/
theorem C6_suspended_symbol_targets (w_dic : List (String × ℚ)) (t : ℚ)
    (prices : String → ℚ) (algo : String) (susp : List String)
    (pos : String → Option ℤ) (sec : String) (wv : ℚ)
    (halgo : algo = "close" ∨ algo = "vwap")
    (hmem : (sec, wv) ∈ w_dic) (hs : sec ∈ susp) :
    generate_weights_order w_dic t prices algo susp pos
      = Except.ok (w_dic.map (goalOf susp pos t prices),
          t - (w_dic.map (cashOf susp t prices)).sum)
    ∧ goalOf susp pos t prices (sec, wv) = ⟨sec, (pos sec).getD 0⟩
    ∧ (⟨sec, (pos sec).getD 0⟩ : GoalPosition)
        ∈ w_dic.map (goalOf susp pos t prices)
    ∧ cashOf susp t prices (sec, wv) = 0 := by
  have hg : goalOf susp pos t prices (sec, wv) = ⟨sec, (pos sec).getD 0⟩ := by
    simp [goalOf, hs]
  refine ⟨generate_weights_order_eq _ _ _ _ _ _ halgo, hg, ?_, by simp [cashOf, hs]⟩
  rw [← hg]
  exact List.mem_map_of_mem _ hmem

/-- C6 witness: symbol B suspended with a held position of 50 shares gets
goal size 50 and zero cash contribution. -/
theorem C6_suspended_symbol_targets_witness :
    goalOf ["B"] (fun s => if s = "B" then some (50:ℤ) else none) 1000
      (fun _ => (10:ℚ)) ("B", (1:ℚ)) = ⟨"B", 50⟩
    ∧ cashOf ["B"] 1000 (fun _ => (10:ℚ)) ("B", (1:ℚ)) = 0 := by
  have h := C6_suspended_symbol_targets [("A", (0:ℚ)), ("B", (1:ℚ))] 1000
    (fun _ => (10:ℚ)) "close" ["B"] (fun s => if s = "B" then some (50:ℤ) else none)
    "B" 1 (Or.inl rfl) (by decide) (by decide)
  refine ⟨?_, h.2.2.2⟩
  rw [h.2.1]
  simp

/-- C7: `re_weight_suspension` fails (raises `ValueError`, modelled as
`Except.error`, so no usable weight map is returned) whenever the suspended
set — duplicate-free and drawn from the universe — covers the whole
(nonempty, duplicate-free) universe, and it is a no-op returning the
weights unchanged when the suspended set is empty. -/
theorem C7_reweight_all_suspended (weights : List (String × ℚ))
    (univ susp : List String) (hu : univ ≠ []) (hnds : susp.Nodup)
    (hndu : univ.Nodup) (hsub : susp ⊆ univ) (hcov : univ ⊆ susp) :
    re_weight_suspension weights univ susp = Except.error "All suspended"
    ∧ re_weight_suspension weights univ [] = Except.ok weights := by
  have hfin : susp.toFinset = univ.toFinset := by
    apply Finset.Subset.antisymm <;> intro x hx <;>
      simp only [List.mem_toFinset] at * <;> [exact hsub hx; exact hcov hx]
  have hlen : susp.length = univ.length := by
    rw [← List.toFinset_card_of_nodup hnds, ← List.toFinset_card_of_nodup hndu,
      hfin]
  have hne : susp ≠ [] := by
    intro h
    subst h
    obtain ⟨x, hx⟩ := List.exists_mem_of_ne_nil univ hu
    exact absurd (hcov hx) (List.not_mem_nil x)
  constructor
  · rw [re_weight_suspension, if_neg (by simpa [List.isEmpty_iff] using hne),
      if_pos hlen]
  · rfl

/-- C7 witness: universe `{A,B}` fully suspended fails; the empty
suspension list is a no-op. -/
theorem C7_reweight_all_suspended_witness :
    re_weight_suspension [("A", (1:ℚ)), ("B", (0:ℚ))] ["A", "B"] ["A", "B"]
      = Except.error "All suspended"
    ∧ re_weight_suspension [("A", (1:ℚ)), ("B", (0:ℚ))] ["A", "B"] []
      = Except.ok [("A", 1), ("B", 0)] :=
  C7_reweight_all_suspended [("A", 1), ("B", 0)] ["A", "B"] ["A", "B"]
    (by decide) (by decide) (by decide)
    (fun _ h => h) (fun _ h => h)

/-- C8: the allocator is deterministic and idempotent — two runs of
`generate_weights_order` on componentwise-identical weight map, budget,
prices, algo tag, suspended set and ledger view return identical
`(goals, cash_left)` results. -/
theorem C8_allocator_deterministic (w₁ w₂ : List (String × ℚ)) (t₁ t₂ : ℚ)
    (p₁ p₂ : String → ℚ) (a₁ a₂ : String) (s₁ s₂ : List String)
    (g₁ g₂ : String → Option ℤ) (hw : w₁ = w₂) (ht : t₁ = t₂) (hp : p₁ = p₂)
    (ha : a₁ = a₂) (hs : s₁ = s₂) (hg : g₁ = g₂) :
    generate_weights_order w₁ t₁ p₁ a₁ s₁ g₁
      = generate_weights_order w₂ t₂ p₂ a₂ s₂ g₂ := by
  rw [hw, ht, hp, ha, hs, hg]

/-- C8 witness: two identical runs on a concrete input agree. -/
theorem C8_allocator_deterministic_witness :
    generate_weights_order [("A", (1:ℚ))] 1000 (fun _ => (10:ℚ)) "close" []
        (fun _ => none)
      = generate_weights_order [("A", (1:ℚ))] 1000 (fun _ => (10:ℚ)) "close" []
        (fun _ => none) :=
  C8_allocator_deterministic _ _ _ _ _ _ _ _ _ _ _ _
    rfl rfl rfl rfl rfl rfl

lemma cancel_any_iff (gw : String → String) (l : List String) :
    ((l.map gw).any fun s => s ≠ "") = true ↔ ∃ e ∈ l, gw e ≠ "" := by
  simp [List.any_eq_true]

/-- C5: `cancel_order` fails with the unknown-task message
`"No task id {task_id}"` when the task id is unrecognized; for a known task
it cancels every entrust id independently, succeeds iff every individual
cancel succeeded (returned an empty message), on any failure returns the
`','.join` of all per-entrust messages (empty entries preserved), and in
particular a 3-order task with exactly one failing cancel returns overall
failure with the joined message, whose non-empty entries number exactly
one. -/
theorem C5_cancel_order_aggregation (m : List (String × List String))
    (gw : String → String) (tid : String) :
    (m.lookup tid = none →
      cancel_order gw m tid = (false, "No task id " ++ tid))
    ∧ (∀ l, m.lookup tid = some l →
        ((cancel_order gw m tid).1 = true ↔ ∀ e ∈ l, gw e = "")
        ∧ ((∃ e ∈ l, gw e ≠ "") →
            cancel_order gw m tid
              = (false, String.intercalate "," (l.map gw))))
    ∧ (∀ l, m.lookup tid = some l → l.length = 3 →
        ((l.map gw).filter (fun s => s ≠ "")).length = 1 →
        cancel_order gw m tid
          = (false, String.intercalate "," (l.map gw))) := by
  have hsome : ∀ l, m.lookup tid = some l →
      ((cancel_order gw m tid).1 = true ↔ ∀ e ∈ l, gw e = "")
      ∧ ((∃ e ∈ l, gw e ≠ "") →
          cancel_order gw m tid
            = (false, String.intercalate "," (l.map gw))) := by
    intro l hl
    by_cases hA : ∃ e ∈ l, gw e ≠ ""
    · have hb : ((l.map gw).any fun s => s ≠ "") = true :=
        (cancel_any_iff gw l).mpr hA
      have hres : cancel_order gw m tid
          = (false, String.intercalate "," (l.map gw)) := by
        simp only [cancel_order, hl, hb, if_pos]
      refine ⟨?_, fun _ => hres⟩
      rw [hres]
      refine iff_of_false (by simp) ?_
      intro hall
      obtain ⟨e, he, hne⟩ := hA
      exact hne (hall e he)
    · have hb : ((l.map gw).any fun s => s ≠ "") = false := by
        rw [← Bool.not_eq_true]
        intro hcontra
        exact hA ((cancel_any_iff gw l).mp hcontra)
      have hres : cancel_order gw m tid = (true, "") := by
        simp only [cancel_order, hl, hb]
        rfl
      refine ⟨?_, fun hcontra => absurd hcontra hA⟩
      rw [hres]
      refine iff_of_true rfl ?_
      intro e he
      by_contra hne
      exact hA ⟨e, he, hne⟩
  refine ⟨fun hnone => by simp only [cancel_order, hnone], hsome, ?_⟩
  intro l hl _ hfilter
  refine (hsome l hl).2 ?_
  have hne : (l.map gw).filter (fun s => s ≠ "") ≠ [] := by
    intro h
    rw [h] at hfilter
    exact absurd hfilter (by decide)
  obtain ⟨s, hs⟩ := List.exists_mem_of_ne_nil _ hne
  have hs' := List.of_mem_filter hs
  have hsm := List.mem_of_mem_filter hs
  obtain ⟨e, he, rfl⟩ := List.mem_map.mp hsm
  exact ⟨e, he, by simpa using hs'⟩

/-- C5 witness: cancelling the known 3-order task `7` where only entrust
`2` fails yields overall failure with aggregated message `",err,"`, which
contains exactly one non-empty error. -/
theorem C5_cancel_order_aggregation_witness :
    cancel_order (fun e => if e = "2" then "err" else "")
      [("7", ["1", "2", "3"])] "7" = (false, ",err,")
    ∧ ((["1", "2", "3"].map (fun e => if e = "2" then "err" else "")).filter
        (fun s => s ≠ "")).length = 1 := by
  have h := (C5_cancel_order_aggregation [("7", ["1", "2", "3"])]
      (fun e => if e = "2" then "err" else "") "7").2.2 ["1", "2", "3"]
      (by decide) (by decide) (by decide)
  exact ⟨by rw [h]; decide, by decide⟩

lemma lookup_append_of_none (m : List (String × List String)) (k : String)
    (v : List String) (hm : m.lookup k = none) :
    (m ++ [(k, v)]).lookup k = some v := by
  induction m with
  | nil => simp
  | cons p ps ih =>
    obtain ⟨pk, pv⟩ := p
    rw [List.lookup_cons] at hm
    rw [List.cons_append, List.lookup_cons]
    cases hbk : k == pk with
    | true =>
      rw [hbk] at hm
      exact absurd hm (by simp)
    | false =>
      rw [hbk] at hm
      simp only []
      exact ih hm

lemma lookup_map_replace (m : List (String × List String)) (k v : String)
    (l : List String) (hm : m.lookup k = some l) :
    (m.map fun p => if p.1 = k then (k, l ++ [v]) else p).lookup k
      = some (l ++ [v]) := by
  induction m with
  | nil => simp at hm
  | cons p ps ih =>
    obtain ⟨pk, pv⟩ := p
    rw [List.lookup_cons] at hm
    cases hbk : k == pk with
    | true =>
      have hpk : pk = k := (eq_of_beq hbk).symm
      rw [hbk] at hm
      have hpv : pv = l := by simpa using hm
      subst hpv
      subst hpk
      simp [List.lookup_cons]
    | false =>
      have hpk : ¬ pk = k := by
        intro h
        subst h
        simp at hbk
      rw [hbk] at hm
      simp only [List.map_cons, if_neg hpk, List.lookup_cons, hbk]
      exact ih hm

/-- Appending an entrust id under a task id in the `defaultdict`-style map
makes it visible under that task id. -/
lemma lookup_taskMapAppend (m : List (String × List String)) (k v : String) :
    (taskMapAppend m k v).lookup k = some ((m.lookup k).getD [] ++ [v]) := by
  unfold taskMapAppend
  cases hm : m.lookup k with
  | none =>
    simp only [hm]
    simpa using lookup_append_of_none m k [v] hm
  | some l =>
    simp only [hm]
    simpa using lookup_map_replace m k v l hm

/-- C9: when the gateway reports a placement error (here: every placement
returns the same non-empty message `err`), `place_order` returns task id
`'0'` together with the error, yet the minted order has already been
appended to the ledger via `pm.add_order`, and the minted task id keeps its
minted entrust id registered in `task_id_map` — the pre-trade registration
is not rolled back on gateway failure. -/
theorem C9_place_order_no_rollback (gw : Order → String) (td : ℕ)
    (st : StratState) (symbol action : String) (price : ℚ) (size : ℤ)
    (err : String) (hgw : ∀ o, gw o = err) (herr : err ≠ "") :
    ∃ st1 : StratState,
      place_order gw td st symbol action price size ""
        = Except.ok (("0", err), st1)
      ∧ st1.pm_orders = st.pm_orders ++
          [{ symbol := symbol, action := action, price := price, size := size,
             entrust_date := td, entrust_time := 0,
             task_id := toString (td * 10000 + (st.seq "task_id" + 1)),
             entrust_no := toString (td * 10000 + (st.seq "entrust_no" + 1)) }]
      ∧ st1.task_id_map.lookup (toString (td * 10000 + (st.seq "task_id" + 1)))
          = some ((st.task_id_map.lookup
              (toString (td * 10000 + (st.seq "task_id" + 1)))).getD []
              ++ [toString (td * 10000 + (st.seq "entrust_no" + 1))]) := by
  have hpo : place_order gw td st symbol action price size ""
      = Except.ok (("0", err),
          { seq := fun k => if k = "entrust_no" then st.seq "entrust_no" + 1
                   else if k = "task_id" then st.seq "task_id" + 1 else st.seq k,
            task_id_map := taskMapAppend st.task_id_map
              (toString (td * 10000 + (st.seq "task_id" + 1)))
              (toString (td * 10000 + (st.seq "entrust_no" + 1))),
            pm_orders := st.pm_orders ++
              [{ symbol := symbol, action := action, price := price,
                 size := size, entrust_date := td, entrust_time := 0,
                 task_id := toString (td * 10000 + (st.seq "task_id" + 1)),
                 entrust_no := toString (td * 10000 + (st.seq "entrust_no" + 1)) }] }) := by
    rw [place_order, if_neg (by simp)]
    simp only [hgw]
    rw [if_pos herr]
    simp [getNextNum, get_next]
  refine ⟨_, hpo, rfl, ?_⟩
  exact lookup_taskMapAppend st.task_id_map _ _

/-- C9 witness: a gateway that rejects every order makes `place_order`
return task id `'0'` while the fresh strategy state still records the
order and the task-map entry. -/
theorem C9_place_order_no_rollback_witness :
    ∃ st1 : StratState,
      place_order (fun _ => "rejected") 20171106
        ⟨fun _ => 0, [], []⟩ "000001.SZ" "Buy" 10 100 ""
        = Except.ok (("0", "rejected"), st1)
      ∧ st1.pm_orders = ([] : List Order) ++
          [{ symbol := "000001.SZ", action := "Buy", price := 10, size := 100,
             entrust_date := 20171106, entrust_time := 0,
             task_id := toString (20171106 * 10000 + (0 + 1)),
             entrust_no := toString (20171106 * 10000 + (0 + 1)) }]
      ∧ st1.task_id_map.lookup (toString (20171106 * 10000 + (0 + 1)))
          = some ([] ++ [toString (20171106 * 10000 + (0 + 1))]) := by
  exact C9_place_order_no_rollback (fun _ => "rejected") 20171106
    ⟨fun _ => 0, [], []⟩ "000001.SZ" "Buy" 10 100 "rejected"
    (fun _ => rfl) (by decide)

lemma pbo_errs (gw : Order → String) (td : ℕ) (task_id : String)
    (orders : List Order) (hok : ∀ o, gw o = "") :
    ∀ acc : StratState × List String,
      (orders.foldl (pboStep gw td task_id) acc).2
        = acc.2 ++ List.replicate orders.length "" := by
  induction orders with
  | nil => intro acc; simp
  | cons o os ih =>
    intro acc
    rw [List.foldl_cons, ih]
    simp [pboStep, hok, List.replicate_succ]

lemma intercalate_go_comma (k : ℕ) : ∀ acc : String,
    (String.intercalate.go acc "," (List.replicate k "")).data
      = acc.data ++ List.replicate k ',' := by
  induction k with
  | zero => intro acc; simp [String.intercalate.go]
  | succ k ih =>
    intro acc
    rw [List.replicate_succ]
    show (String.intercalate.go (acc ++ "," ++ "") "," (List.replicate k "")).data = _
    rw [ih]
    simp [List.replicate_succ]

lemma intercalate_comma_replicate (n : ℕ) :
    (String.intercalate "," (List.replicate (n + 1) "")).data
      = List.replicate n ',' := by
  rw [List.replicate_succ]
  show (String.intercalate.go "" "," (List.replicate n "")).data = _
  rw [intercalate_go_comma]
  simp

/-- C10: when every gateway placement in a batch of `n ≥ 2` orders succeeds
(returns the empty message), `place_batch_order`'s returned error message is
`','.join` of `n` empty strings — the non-empty string of `n−1` commas — so
an err-msg-is-empty success check reports failure for every fully
successful multi-order batch. -/
theorem C10_batch_join_commas (gw : Order → String) (td : ℕ)
    (st : StratState) (orders : List Order) (h2 : 2 ≤ orders.length)
    (hok : ∀ o, gw o = "") :
    (place_batch_order gw td st orders).1.2
      = String.intercalate "," (List.replicate orders.length "")
    ∧ ((place_batch_order gw td st orders).1.2).data
      = List.replicate (orders.length - 1) ','
    ∧ (place_batch_order gw td st orders).1.2 ≠ "" := by
  have herr : (place_batch_order gw td st orders).1.2
      = String.intercalate "," (List.replicate orders.length "") := by
    simp only [place_batch_order]
    rw [pbo_errs gw td _ orders hok]
    simp
  obtain ⟨m, hm⟩ : ∃ m, orders.length = m + 1 := ⟨orders.length - 1, by omega⟩
  have hdata : ((place_batch_order gw td st orders).1.2).data
      = List.replicate (orders.length - 1) ',' := by
    rw [herr, hm, intercalate_comma_replicate]
    simp
  refine ⟨herr, hdata, ?_⟩
  intro hemp
  rw [hemp] at hdata
  have h0 : (0 : ℕ) = orders.length - 1 := by
    have := congrArg List.length hdata
    simpa using this
  omega

/-- C10 witness: a fully successful batch of three orders returns the
error message `",,"`, which is non-empty. -/
theorem C10_batch_join_commas_witness :
    (place_batch_order (fun _ => "") 20171106 ⟨fun _ => 0, [], []⟩
        [⟨"000001.SZ", "Buy", 10, 100, 0, 0, "", ""⟩,
         ⟨"000002.SZ", "Buy", 10, 100, 0, 0, "", ""⟩,
         ⟨"000003.SZ", "Sell", 10, 100, 0, 0, "", ""⟩]).1.2
      = String.intercalate ","
          (List.replicate (List.length
            [(⟨"000001.SZ", "Buy", 10, 100, 0, 0, "", ""⟩ : Order),
             ⟨"000002.SZ", "Buy", 10, 100, 0, 0, "", ""⟩,
             ⟨"000003.SZ", "Sell", 10, 100, 0, 0, "", ""⟩]) "")
    ∧ (place_batch_order (fun _ => "") 20171106 ⟨fun _ => 0, [], []⟩
        [⟨"000001.SZ", "Buy", 10, 100, 0, 0, "", ""⟩,
         ⟨"000002.SZ", "Buy", 10, 100, 0, 0, "", ""⟩,
         ⟨"000003.SZ", "Sell", 10, 100, 0, 0, "", ""⟩]).1.2 ≠ "" := by
  have h := C10_batch_join_commas (fun _ => "") 20171106 ⟨fun _ => 0, [], []⟩
    [⟨"000001.SZ", "Buy", 10, 100, 0, 0, "", ""⟩,
     ⟨"000002.SZ", "Buy", 10, 100, 0, 0, "", ""⟩,
     ⟨"000003.SZ", "Sell", 10, 100, 0, 0, "", ""⟩]
    (by decide) (fun _ => rfl)
  exact ⟨h.1, h.2.2⟩

end Jaqs
